import Mathlib

/-!
# Verification of the Veertu CLI marshaling layer (`veertu_cli/veertu_manager.py`)

This file gives a shallow embedding of the marshaling layer of the Veertu
command-line client: the response tokenizer (`_split_and_strip`), the
projection decoder and scalar decoder inside `_call_veertu_app`, the
identifier resolver (`_call_veertu_with_name_fallback`), the application
locator (`_find_working_app_name_from_options` / `_verify_app_name`) and the
operation tracker (`progress` / `progress_loop`).

Python strings are modelled as `String` (lists of characters); Python's
`float` values are modelled as exact rationals (`ℚ`); the external
`osascript` process and the `list` operation are modelled as oracle
functions supplied as parameters.  Exceptions are modelled with `Except`
over an error type mirroring the module's exception classes.
-/

/-- The exception classes of `veertu_manager.py`.  `vmNotFound` optionally
carries the wrapped error from a failed fallback stage (the Python code
interpolates `str(e_fallback)` into the `VMNotFoundException` message).
`pyTypeError` models a Python-level `TypeError`, which is *not* a
`VeertuManagerException` and therefore is never caught by the module's
`except VeertuManagerException` handlers. -/
inductive VErr where
  | managerError
  | veertuAppNotFound
  | wrongProjection
  | importExportFailed
  | internalAppError
  | pyTypeError
  | vmNotFound (wrapped : Option VErr)

/-! ## Python string primitives

Characters are compared with the `LinearOrder Char` instance.  These model
the CPython behaviours used by the module, restricted to ASCII text (the
AppleScript protocol is ASCII). -/

/-- Model of the whitespace characters removed by `str.strip()` (ASCII). -/
def py_is_space (c : Char) : Bool :=
  c == ' ' || c == '\t' || c == '\n' || c == '\r' || c == '\x0b' || c == '\x0c'

/-- Model of the digit test used by `int()` / `float()` parsing (ASCII). -/
def py_is_digit (c : Char) : Bool :=
  decide ('0' ≤ c ∧ c ≤ '9')

/-- Model of `str.lower()` on one character (ASCII range). -/
def ascii_lower (c : Char) : Char :=
  if 'A' ≤ c ∧ c ≤ 'Z' then Char.ofNat (c.toNat + 32) else c

/-- Model of `str.lower()` (ASCII). -/
def py_lower (s : String) : String :=
  ⟨s.data.map ascii_lower⟩

/-- Strip whitespace from both ends of a character list (model of
`str.strip()`). -/
def trim_chars (s : List Char) : List Char :=
  ((s.dropWhile py_is_space).reverse.dropWhile py_is_space).reverse

/-- Model of `str.strip()`. -/
def py_strip (s : String) : String :=
  ⟨trim_chars s.data⟩

/-- `leadsWith pat s` is true when `pat` is an initial segment of `s`. -/
def leadsWith : List Char → List Char → Bool
  | [], _ => true
  | _ :: _, [] => false
  | p :: ps, c :: cs => p == c && leadsWith ps cs

/-- Fuelled worker for `replace_all`; each step either copies one character
or replaces one (non-overlapping, left-to-right) occurrence of `old`. -/
def replace_all_fuel : Nat → List Char → List Char → List Char → List Char
  | 0, _, _, s => s
  | _ + 1, _, _, [] => []
  | fuel + 1, old, new, c :: rest =>
    if leadsWith old (c :: rest) then
      new ++ replace_all_fuel fuel old new ((c :: rest).drop old.length)
    else
      c :: replace_all_fuel fuel old new rest

/-- Model of `str.replace(old, new)` (all occurrences, scanning left to
right without overlap). -/
def replace_all (old new s : List Char) : List Char :=
  replace_all_fuel (s.length + 1) old new s

/-- Split a character list at every comma (model of `str.split(',')`):
the empty input yields one empty piece, and `n` commas yield `n + 1`
pieces. -/
def split_comma : List Char → List (List Char)
  | [] => [[]]
  | c :: rest =>
    if c == ',' then
      [] :: split_comma rest
    else
      match split_comma rest with
      | [] => [[c]]
      | piece :: more => (c :: piece) :: more

/-! ## The response tokenizer: `VeertuManager._split_and_strip` -/

/-- The comprehension inside `_split_and_strip`:
`[item.strip().replace('missing value', '-') for item in str.split(',')]`. -/
def split_and_strip_items (s : String) : List String :=
  (split_comma s.data).map
    (fun item => ⟨replace_all "missing value".data "-".data (trim_chars item)⟩)

/-- `VeertuManager._split_and_strip` (lines 743–752): split on commas, strip
each piece, replace the `missing value` sentinel by `-`, and collapse the
single-empty-token case to the empty list. -/
def split_and_strip (s : String) : List String :=
  let items := split_and_strip_items s
  if items.length = 1 ∧ items.head? = some "" then [] else items

/-! ## Numeric parsing: models of `int()` and `float()`

Python's `int(s)` and `float(s)` strip surrounding whitespace, accept an
optional sign and then digits (for `float`, an optional fractional part).
The models below cover exactly the decimal literal forms; the exotic
accepted forms (`0x..`, exponents, `inf`, `nan`, `_` digit separators)
never occur in the AppleScript protocol handled by this module. -/

/-- Peel an optional leading `+` / `-` sign, returning the sign as `1` or
`-1` together with the remaining characters. -/
def strip_sign : List Char → Int × List Char
  | [] => (1, [])
  | c :: rest =>
    if c = '+' then (1, rest)
    else if c = '-' then (-1, rest)
    else (1, c :: rest)

/-- Value of a list of decimal digit characters. -/
def digits_to_nat (ds : List Char) : Nat :=
  ds.foldl (fun a c => a * 10 + (c.toNat - 48)) 0

/-- Model of `int(s)`: strip, optional sign, one or more digits, nothing
else. -/
def py_parse_int (s : String) : Option Int :=
  let t := trim_chars s.data
  let sr := strip_sign t
  let ds := sr.2.takeWhile py_is_digit
  if ds = [] ∨ sr.2.dropWhile py_is_digit ≠ [] then none
  else some (sr.1 * (digits_to_nat ds : Int))

/-- `VeertuManager._is_int_parsed` (lines 236–241): `int(s)` succeeds. -/
def is_int_parsed (s : String) : Bool :=
  (py_parse_int s).isSome

/-- Model of `float(s)` for decimal literals: strip, optional sign, then
`digits`, `digits.digits`, `digits.` or `.digits`.  The parsed value is
kept exact as a pair `(n, k)` denoting the rational `n / 10 ^ k` (`k` is
the number of fraction digits); `py_float_val` gives its value in `ℚ`. -/
def py_parse_float (s : String) : Option (Int × Nat) :=
  let t := trim_chars s.data
  let sr := strip_sign t
  let ip := sr.2.takeWhile py_is_digit
  match sr.2.dropWhile py_is_digit with
  | [] => if ip = [] then none else some (sr.1 * (digits_to_nat ip : Int), 0)
  | dot :: fr =>
    if dot = '.' then
      let fp := fr.takeWhile py_is_digit
      if fr.dropWhile py_is_digit ≠ [] then none
      else if ip = [] ∧ fp = [] then none
      else some
        (sr.1 * ((digits_to_nat ip : Int) * 10 ^ fp.length + (digits_to_nat fp : Int)),
         fp.length)
    else none

/-- The rational value denoted by a parsed float `(n, k)`, namely
`n / 10 ^ k`. -/
def py_float_val (q : Int × Nat) : ℚ :=
  (q.1 : ℚ) / (10 : ℚ) ^ q.2

/-- Model of the comparison `f < 0.0` on a parsed float. -/
def pyf_neg (q : Int × Nat) : Bool :=
  q.1 < 0

/-- Model of the comparison `f >= 1.0` on a parsed float. -/
def pyf_ge_one (q : Int × Nat) : Bool :=
  (10 : Int) ^ q.2 ≤ q.1

/-- Model of `int(f * 100)` on a parsed float (the code only evaluates it
after establishing `f >= 0`, where truncation and floor agree). -/
def pyf_floor_100 (q : Int × Nat) : Int :=
  q.1 * 100 / (10 : Int) ^ q.2

/-! ## The projection decoder (lines 174–213 of `_call_veertu_app`)

A projection is an ordered association of field names to inclusion flags
(`OrderedDict[str, bool]` in the source); a decoded record maps field
names to values, `none` standing for Python `None`. -/

/-- A decoded record: ordered field-name/value pairs (`OrderedDict` in the
source); a `none` value models Python `None`. -/
abbrev VRecord := List (String × Option String)

/-- `VeertuManager._turn_into_dict` (lines 243–256): bind projection keys
to output tokens in order, keeping only keys whose flag is true; a key
whose token slot is past the end of the output is bound to `None`.  The
first argument is `list_output`, threaded left to right. -/
def turn_into_dict : List String → List (String × Bool) → VRecord
  | _, [] => []
  | item :: ts, (key, is_ret) :: rest =>
    if is_ret then (key, some item) :: turn_into_dict ts rest
    else turn_into_dict ts rest
  | [], (key, is_ret) :: rest =>
    if is_ret then (key, none) :: turn_into_dict [] rest
    else turn_into_dict [] rest

/-- One iteration of the inner loop at lines 207–212: bind the projection
keys to the next `len(projection)` tokens in order, keeping the flagged
ones.  (The source indexes `list_output` with a running counter; the
divisibility check performed beforehand guarantees the index stays in
range, so the `[]` case is unreachable.) -/
def record_of_chunk : List (String × Bool) → List String → VRecord
  | [], _ => []
  | (key, is_ret) :: rest, item :: ts =>
    if is_ret then (key, some item) :: record_of_chunk rest ts
    else record_of_chunk rest ts
  | _ :: _, [] => []

/-- The outer loop at lines 202–213: build `objects_returned` records,
each consuming the next `len(projection)` consecutive tokens. -/
def build_records (projection : List (String × Bool)) : Nat → List String → List VRecord
  | 0, _ => []
  | n + 1, toks =>
    record_of_chunk projection (toks.take projection.length)
      :: build_records projection n (toks.drop projection.length)

/-- Result of the projection decode: a single record (`return_as_dict`
with one object) or a list of records. -/
inductive DecodeResult where
  | single (r : VRecord)
  | many (rs : List VRecord)

/-- The records carried by a `DecodeResult`. -/
def decode_records : DecodeResult → List VRecord
  | .single r => [r]
  | .many rs => rs

/-- The projection-decode stage of `_call_veertu_app` (lines 174–213),
applied to the raw `osascript` output: tokenize with `_split_and_strip`,
check that the token count is a multiple of the projection length
(raising `WrongProjectionException` otherwise, lines 191–192), and slice
the tokens into records; a single object is returned unwrapped unless
`return_list_of_dicts` is set (line 199). -/
def projection_stage (output : String) (projection : List (String × Bool))
    (return_list_of_dicts : Bool) : Except VErr DecodeResult :=
  let list_output := split_and_strip output
  let projection_length := projection.length
  if projection_length = 0 then
    if list_output = [] ∨ (list_output.length = 1 ∧ list_output.head? = some "") then
      .ok (if return_list_of_dicts then .many [] else .single [])
    else .error .wrongProjection
  else
    let list_output :=
      if list_output.length = 1 ∧ list_output.head? = some "" then [] else list_output
    if list_output.length % projection_length ≠ 0 then .error .wrongProjection
    else
      let objects_returned := list_output.length / projection_length
      if objects_returned = 0 then
        .ok (if return_list_of_dicts then .many [] else .single [])
      else if objects_returned = 1 ∧ return_list_of_dicts = false then
        .ok (.single (turn_into_dict list_output projection))
      else
        .ok (.many (build_records projection objects_returned list_output))

/-- The record the specification expects from one chunk of tokens: the
fields of `projection` whose flag is true, in projection order, each
bound to its positional token. -/
def projected_fields (projection : List (String × Bool)) (chunk : List String) : VRecord :=
  (projection.zip chunk).filterMap
    (fun p => if p.1.2 then some (p.1.1, some p.2) else none)

/-! ## The scalar decoder (lines 215–223 of `_call_veertu_app`) -/

/-- The scalar-decode stage of `_call_veertu_app` (lines 216–223):
`bool(int(s))` when `s` parses as an integer, else `True`/`False` for the
(case-insensitive) literals, else `False`. -/
def scalar_stage (osscript_output : String) : Bool :=
  if is_int_parsed osscript_output then (py_parse_int osscript_output).getD 0 != 0
  else if py_lower osscript_output = "true" then true
  else if py_lower osscript_output = "false" then false
  else false

/-! ## The operation tracker: `progress` and `progress_loop`

Both take the raw (already stripped) output of
`get progress of "<handle>"`; the empty string, `(null)` and the
`-` placeholder (the normalized `missing value`) mark an invalid handle
or a vanished operation. -/

/-- The sentinel test at lines 457 and 481:
`not s or s == '(null)' or s == "-"`. -/
def sentinel_reading (s : String) : Bool :=
  s == "" || s == "(null)" || s == "-"

/-! ### IEEE-754 binary64 model for `progress`

`progress` computes `int(float(s) * 100)` in CPython, i.e. in IEEE-754
double precision, which truncates `float("0.29") * 100 = 28.999…96` to
`28` — one below the exact `floor(0.29 * 100) = 29`.  A double is
modelled exactly as a pair `(m, e)` denoting `m * 2 ^ e` with
`2^52 ≤ |m| < 2^53` (or `m = 0`); decimal-to-double conversion and the
multiplication both round to nearest, ties to even, as IEEE-754
prescribes.  The model covers the normal range, where every reading of
the `0.00`–`2.00` progress protocol lives (no infinities, NaNs or
subnormals, which no such reading produces). -/

/-- Floor-of-log2 with explicit fuel (`Nat.log2` is well-founded and does
not reduce in the kernel). -/
def nat_log2_fuel : Nat → Nat → Nat
  | 0, _ => 0
  | fuel + 1, n => if 2 ≤ n then nat_log2_fuel fuel (n / 2) + 1 else 0

/-- Nearest integer to `num / den` (`den > 0`), ties to even. -/
def round_half_even (num den : Int) : Int :=
  let q := num.fdiv den
  let r := num - q * den
  if 2 * r < den then q
  else if den < 2 * r then q + 1
  else if q % 2 = 0 then q else q + 1

/-- Round `(a / b) * 2 ^ (-e)` to the nearest integer, ties to even. -/
def round_at_exp (a b : Nat) (e : Int) : Int :=
  if 0 ≤ e then round_half_even (a : Int) ((b : Int) * 2 ^ e.toNat)
  else round_half_even ((a : Int) * 2 ^ (-e).toNat) (b : Int)

/-- Normalize the positive rational `a / b` to a 53-bit mantissa: find
`(m, e)` with `m` the correctly rounded value of `(a / b) * 2 ^ (-e)` and
`2^52 ≤ m < 2^53`, adjusting the exponent estimate as needed. -/
def norm53 : Nat → Nat → Nat → Int → Int × Int
  | 0, a, b, e => (round_at_exp a b e, e)
  | fuel + 1, a, b, e =>
    let m := round_at_exp a b e
    if m < 2 ^ 52 then norm53 fuel a b (e - 1)
    else if 2 ^ 53 ≤ m then norm53 fuel a b (e + 1)
    else (m, e)

/-- The binary64 value nearest to the decimal `n / 10 ^ k` (model of
CPython `float(s)` on a parsed decimal literal, normal range). -/
def dbl_of_decimal (n : Int) (k : Nat) : Int × Int :=
  if n = 0 then (0, 0)
  else
    let a := n.natAbs
    let b := 10 ^ k
    let e0 := (nat_log2_fuel 128 a : Int) - (nat_log2_fuel 128 b : Int) - 52
    let me := norm53 8 a b e0
    (if n < 0 then -me.1 else me.1, me.2)

/-- The comparison `f < 0.0` on a modelled double. -/
def dbl_neg (d : Int × Int) : Bool :=
  d.1 < 0

/-- IEEE-754 binary64 multiplication by `100` (exact product `m * 100`,
re-rounded to a 53-bit mantissa, nearest, ties to even). -/
def dbl_mul_100 (d : Int × Int) : Int × Int :=
  if d.1 = 0 then (0, 0)
  else
    let p := d.1 * 100
    let a := p.natAbs
    let e0 := (nat_log2_fuel 128 a : Int) - 52
    let me := norm53 8 a 1 e0
    (if p < 0 then -me.1 else me.1, d.2 + me.2)

/-- Python `int()` on a modelled double: truncation toward zero. -/
def dbl_trunc (d : Int × Int) : Int :=
  if 0 ≤ d.2 then d.1 * 2 ^ d.2.toNat
  else d.1.tdiv (2 ^ (-d.2).toNat)

/-- `VeertuManager.progress` (lines 479–495): one progress poll.  Fails on
a sentinel reading, an unparseable reading, or a negative value;
otherwise reports `int(f * 100)` — computed, as in CPython, on the
binary64 value of the reading — with a computed `0` reported as `1`. -/
def progress (progress_string : String) : Except VErr Int :=
  if sentinel_reading progress_string then .error .importExportFailed
  else
    match py_parse_float (py_strip progress_string) with
    | none => .error .importExportFailed
    | some q =>
      let f := dbl_of_decimal q.1 q.2
      if dbl_neg f then .error .importExportFailed
      else
        let progress_num := dbl_trunc (dbl_mul_100 f)
        .ok (if progress_num = 0 then 1 else progress_num)

/-- How one run of `progress_loop` ends: normal completion (`break` at
line 471), an `ImportExportFailedException`, or fuel exhaustion (the
source loop is unbounded; `outOfFuel` stands for "still polling"). -/
inductive LoopRes where
  | completed
  | failedPoll
  | outOfFuel
deriving DecidableEq, Repr

/-- Worker for `progress_loop`.  `readings i` is the raw output of the
`i`-th progress query; `polls` and `sleeps` count the polls made and the
`time.sleep(1)` calls executed so far.  One fuel unit is one loop
iteration, mirroring lines 455–475: sentinel check, `float` parse,
`>= 1.0` break, `< 0.0` failure, then sleep and repeat. -/
def progress_loop_go (readings : Nat → String) : Nat → Nat → Nat → LoopRes × Nat × Nat
  | 0, polls, sleeps => (.outOfFuel, polls, sleeps)
  | fuel + 1, polls, sleeps =>
    let s := readings polls
    if sentinel_reading s then (.failedPoll, polls + 1, sleeps)
    else
      match py_parse_float s with
      | none => (.failedPoll, polls + 1, sleeps)
      | some q =>
        if pyf_ge_one q then (.completed, polls + 1, sleeps)
        else if pyf_neg q then (.failedPoll, polls + 1, sleeps)
        else progress_loop_go readings fuel (polls + 1) (sleeps + 1)

/-- `VeertuManager.progress_loop` (lines 453–477), with the readings of
successive polls supplied as an oracle and the unbounded `while True`
bounded by `fuel`.  Returns the outcome together with the number of
polls made and the number of one-second sleeps executed. -/
def progress_loop (readings : Nat → String) (fuel : Nat) : LoopRes × Nat × Nat :=
  progress_loop_go readings fuel 0 0

/-- A reading on which the loop keeps polling: not a sentinel, parses as
a fraction `q` with `0 <= q < 1`. -/
def good_reading (s : String) : Bool :=
  !sentinel_reading s &&
    match py_parse_float s with
    | none => false
    | some q => !pyf_ge_one q && !pyf_neg q

/-! ## The identifier resolver: `_call_veertu_with_name_fallback`

The call to `_call_veertu_app` and the `list()` operation are supplied as
oracles.  Besides the result, the model returns the trace of external
operations attempted, so that "retries exactly once" and "fallback never
attempted" are stated directly. -/

/-- One external operation performed by the resolver: a scripted call
with the given rendered command, or the entity listing (`self.list()`). -/
inductive FBEvent where
  | appCall (cmd : String)
  | listCall

/-- Model of `str.format` for `'{}'` placeholders (with `'{{'`/`'}}'`
escapes), substituting arguments positionally — the only format-string
forms used by this module. -/
def py_format_go : List Char → List String → List Char
  | [], _ => []
  | '{' :: '{' :: rest, as => '{' :: py_format_go rest as
  | '}' :: '}' :: rest, as => '}' :: py_format_go rest as
  | '{' :: '}' :: rest, as => (as.headD "").data ++ py_format_go rest as.tail
  | c :: rest, as => c :: py_format_go rest as

/-- `command.format(*args)` (line 266). -/
def py_format (command : String) (args : List String) : String :=
  ⟨py_format_go command.data args⟩

/-- Model of `str.replace(old, new, 1)`: replace the first occurrence
only (line 289). -/
def py_replace_first_go (old new : List Char) : List Char → List Char
  | [] => []
  | c :: rest =>
    if leadsWith old (c :: rest) then new ++ (c :: rest).drop old.length
    else c :: py_replace_first_go old new rest

/-- `s.replace(old, new, 1)`. -/
def py_replace_first (s old new : String) : String :=
  ⟨py_replace_first_go old.data new.data s.data⟩

/-- Model of `dict.get(key)` on a decoded record: `None` both for a
missing key and for a key bound to `None`. -/
def record_get (r : VRecord) (key : String) : Option String :=
  (List.lookup key r).join

/-- The scan at lines 284–290: find the first listed VM whose `name`
equals `id_value`; retry the call once with the VM's `id` substituted for
the first occurrence of `id_value` in the rendered command.  A retry
failure with a `VeertuManagerException` is caught by the enclosing
`except` at line 291 and wrapped into a `VMNotFoundException`; a `None`
VM id would make `str.replace` raise `TypeError` (uncaught). -/
def fallback_scan {α : Type} (callApp : String → Except VErr α)
    (command_formatted id_value : String) :
    List VRecord → List FBEvent → Except VErr α × List FBEvent
  | [], log => (.error (.vmNotFound none), log)
  | vm :: rest, log =>
    if record_get vm "name" = some id_value then
      match record_get vm "id" with
      | none => (.error .pyTypeError, log)
      | some vm_id_found =>
        let new_command := py_replace_first command_formatted id_value vm_id_found
        match callApp new_command with
        | .ok v => (.ok v, log ++ [.appCall new_command])
        | .error .pyTypeError => (.error .pyTypeError, log ++ [.appCall new_command])
        | .error e => (.error (.vmNotFound (some e)), log ++ [.appCall new_command])
    else fallback_scan callApp command_formatted id_value rest log

/-- `VeertuManager._call_veertu_with_name_fallback` (lines 259–294).
`callApp cmd` models `self._call_veertu_app(cmd, format=False, **kwargs)`
and `listVMs ()` models `self.list()`.  The direct attempt's
`VMNotFoundException` falls through to the name lookup (line 276),
`VeertuAppNotFoundException` is re-raised (line 278), and any other
error propagates uncaught; during the fallback, any
`VeertuManagerException` (from `list()` or from the retried call) is
wrapped into a `VMNotFoundException` (lines 291–292), and a scan that
matches nothing raises `VMNotFoundException` (line 294). -/
def call_veertu_with_name_fallback {α : Type} (callApp : String → Except VErr α)
    (listVMs : Unit → Except VErr (List VRecord)) (command : String)
    (args : List String) (id_value : Option String) : Except VErr α × List FBEvent :=
  match id_value.orElse (fun _ => args.head?) with
  | none => (.error .managerError, [])
  | some idv =>
    let command_formatted := py_format command args
    match callApp command_formatted with
    | .ok v => (.ok v, [.appCall command_formatted])
    | .error (.vmNotFound _) =>
      match listVMs () with
      | .error e2 =>
        (match e2 with
         | .pyTypeError => .error .pyTypeError
         | _ => .error (.vmNotFound (some e2)),
         [.appCall command_formatted, .listCall])
      | .ok vms_list =>
        fallback_scan callApp command_formatted idv vms_list
          [.appCall command_formatted, .listCall]
    | .error e => (.error e, [.appCall command_formatted])

/-! ## The application locator -/

/-- `VeertuManager._verify_app_name` (lines 107–123): probe the app name
with `version()` (supplied as the oracle `probe`): responsive → `true`;
`VeertuAppNotFoundException` → `false`; any other
`VeertuManagerException` → `true` (the app exists, the command failed). -/
def verify_app_name (probe : String → Except VErr Bool) (app_name : String) : Bool :=
  match probe app_name with
  | .ok _ => true
  | .error .veertuAppNotFound => false
  | .error _ => true

/-- `VeertuManager._find_working_app_name_from_options` (lines 126–141):
return the first option that verifies; otherwise verify the fallback
name too, and return it whether or not that final probe succeeds. -/
def find_working_app_name_from_options (probe : String → Except VErr Bool)
    (options : List String) (fallback_app_name : String) : String :=
  match options.find? (fun app_option => verify_app_name probe app_option) with
  | some app_option => app_option
  | none =>
    if verify_app_name probe fallback_app_name then fallback_app_name
    else fallback_app_name

/-! ## Name resolution inside `_call_veertu_app` (claim C10)

The signature of `_call_veertu_app` (lines 144–155) binds `self`,
`command`, `*args` and seven explicit keyword-only parameters — no
`**kwargs`.  Its first statement (line 156) is
`if kwargs.get('format', True):`, which begins by resolving the name
`kwargs` through the local, global and builtin scopes. -/

/-- The names bound in the scope of `_call_veertu_app`'s body: its
parameters (lines 144–155).  The body assigns no name before line 156. -/
def call_veertu_app_locals : List String :=
  ["self", "command", "args", "projection", "return_as_dict",
   "return_list_of_dicts", "scalar", "number", "return_formatted", "format_args"]

/-- The module-level names of `veertu_manager.py`: imports (lines 1–15),
type aliases (lines 21–27), exception classes, the manager classes and
the factory function. -/
def veertu_manager_globals : List String :=
  ["os", "ConfigParser", "subprocess", "OrderedDict", "tarfile", "time",
   "plistlib", "Any", "Dict", "List", "Optional", "Union", "Sequence",
   "Tuple", "TypeVar", "Callable", "Type", "DictStrAny", "ListDictStrAny",
   "ProjectionType", "_T", "_VT_co", "VeertuManagerException",
   "VMNotFoundException", "NoOutputFileSpecified", "InternalAppError",
   "ImportExportFailedException", "WrongProjectionException",
   "VeertuAppNotFoundException", "VeertuManager", "VeertuManager120",
   "get_veertu_manager"]

/-- The Python builtin names referenced by this module. -/
def python_builtins : List String :=
  ["len", "int", "bool", "float", "str", "isinstance", "range", "print",
   "any", "Exception", "ValueError", "ImportError", "True", "False", "None"]

/-- Python name resolution for `_call_veertu_app`'s body: local scope,
then module globals, then builtins. -/
def name_resolves (n : String) : Bool :=
  call_veertu_app_locals.contains n || veertu_manager_globals.contains n ||
    python_builtins.contains n

/-- A Python-level exception from entering `_call_veertu_app`. -/
inductive PyExc where
  | nameError
deriving DecidableEq, Repr

/-- Entering `_call_veertu_app`: its first statement (line 156) resolves
the name `kwargs`.  The result is paired with the number of external
processes spawned: the `subprocess.check_output` call at line 163 is
only reached if the name resolves (in which case the body would go on to
spawn exactly one process). -/
def call_veertu_app_entry : Except PyExc Unit × Nat :=
  if name_resolves "kwargs" then (.ok (), 1) else (.error .nameError, 0)

/-! ## Helper lemmas -/

/-- `_split_and_strip` never returns the singleton empty token: that case
is collapsed to the empty list (lines 750–751). -/
theorem split_and_strip_ne_single_empty (s : String) : split_and_strip s ≠ [""] := by
  intro h
  simp only [split_and_strip] at h
  split at h
  · exact List.cons_ne_nil _ _ h.symm
  · next hc => exact hc (by rw [h]; exact ⟨rfl, rfl⟩)

/-- The single-empty-token test used at lines 180 and 187 characterizes
the list `[""]`. -/
theorem length_one_head_empty {l : List String} :
    l.length = 1 ∧ l.head? = some "" ↔ l = [""] := by
  constructor
  · rintro ⟨h1, h2⟩
    match l, h1 with
    | [a], _ =>
      simp only [List.head?_cons, Option.some.injEq] at h2
      rw [h2]
  · rintro rfl
    exact ⟨rfl, rfl⟩

/-! ## Claims -/

/-- C10: every call to `_call_veertu_app` raises an unhandled `NameError`
before spawning any external process, because its body reads the name
`kwargs` (first at the `format` check, line 156) while its signature
binds no such name; hence no invocation returns a value. -/
theorem claim_C10 :
    call_veertu_app_locals.contains "kwargs" = false ∧
    name_resolves "kwargs" = false ∧
    call_veertu_app_entry = (.error .nameError, 0) :=
  ⟨by decide, by decide, rfl⟩

/-- C3 as stated is false: `_split_and_strip(",")` splits into two empty
tokens, so the single-empty-token collapse does not fire and the result
is `["", ""]`, not the empty sequence. -/
theorem claim_C3_counterexample :
    split_and_strip "," = ["", ""] ∧ split_and_strip "," ≠ [] := by
  constructor
  · decide
  · decide

/-- C3 (amended): the tokenizer on the empty string, and on any input
whose comma-split pieces strip to exactly one empty token, returns the
empty sequence — and never returns the singleton empty-string sequence —
while `","` (two empty tokens) yields `["", ""]`; every returned token is
a comma-piece that has been whitespace-trimmed with the `missing value`
sentinel replaced by `-`. -/
theorem claim_C3 :
    split_and_strip "" = [] ∧
    (∀ s, split_and_strip_items s = [""] → split_and_strip s = []) ∧
    split_and_strip "," = ["", ""] ∧
    (∀ s, split_and_strip s ≠ [""]) ∧
    (∀ s t, t ∈ split_and_strip s →
      ∃ piece, piece ∈ split_comma s.data ∧
        t = ⟨replace_all "missing value".data "-".data (trim_chars piece)⟩) := by
  refine ⟨by decide, ?_, by decide, split_and_strip_ne_single_empty, ?_⟩
  · intro s h
    simp only [split_and_strip, h]
    rfl
  · intro s t ht
    have hsub : t ∈ split_and_strip_items s := by
      simp only [split_and_strip] at ht
      split at ht
      · exact absurd ht (List.not_mem_nil t)
      · exact ht
    simp only [split_and_strip_items, List.mem_map] at hsub
    obtain ⟨piece, hp, he⟩ := hsub
    exact ⟨piece, hp, he.symm⟩

/-- Witness for C3: a blank input strips to one empty token and therefore
tokenizes to the empty sequence. -/
theorem claim_C3_witness : split_and_strip "  " = [] :=
  claim_C3.2.1 "  " (by decide)

/-- C2: with a non-empty projection, a token count not divisible by the
projection length makes the projection decode fail with
`WrongProjectionException`, returning no record. -/
theorem claim_C2 (s : String) (projection : List (String × Bool))
    (return_list_of_dicts : Bool)
    (hproj : projection ≠ [])
    (hmod : (split_and_strip s).length % projection.length ≠ 0) :
    projection_stage s projection return_list_of_dicts = .error .wrongProjection := by
  have hlen : projection.length ≠ 0 := by
    intro h
    exact hproj (List.length_eq_zero.mp h)
  have hnorm : ¬((split_and_strip s).length = 1 ∧ (split_and_strip s).head? = some "") := by
    intro h
    exact split_and_strip_ne_single_empty s (length_one_head_empty.mp h)
  simp only [projection_stage, if_neg hlen, if_neg hnorm, if_pos hmod]

/-- Witness for C2: two tokens against a three-field projection. -/
theorem claim_C2_witness :
    projection_stage "a, b" [("id", true), ("name", true), ("status", true)] false
      = .error .wrongProjection :=
  claim_C2 "a, b" [("id", true), ("name", true), ("status", true)] false
    (by decide) (by decide)

/-- A whitespace character is unchanged by `ascii_lower`. -/
theorem space_ascii_lower {c : Char} (hs : py_is_space c = true) : ascii_lower c = c := by
  simp only [py_is_space, Bool.or_eq_true, beq_iff_eq] at hs
  rcases hs with ((((h | h) | h) | h) | h) | h <;> subst h <;> decide

/-- A digit character is unchanged by `ascii_lower`. -/
theorem digit_ascii_lower {c : Char} (hd : py_is_digit c = true) : ascii_lower c = c := by
  simp only [py_is_digit, decide_eq_true_eq] at hd
  unfold ascii_lower
  rw [if_neg]
  rintro ⟨hA, _⟩
  exact absurd (le_trans hA hd.2) (by decide)

/-- `dropWhile` keeps a final element the predicate rejects. -/
theorem dropWhile_append_singleton {p : Char → Bool} {a : Char} (h : p a = false)
    (u : List Char) : (u ++ [a]).dropWhile p = u.dropWhile p ++ [a] := by
  induction u with
  | nil => simp [List.dropWhile_cons, h]
  | cons c cs ih =>
    by_cases hc : p c
    · simp [List.dropWhile_cons, hc, ih]
    · simp [List.dropWhile_cons, hc]

/-- A string whose lowercasing is the literal `true` cannot parse as an
integer: its first character lowers to `t`, so it is no whitespace, no
sign and no digit. -/
theorem py_lower_true_parse_none {s : String} (h : py_lower s = "true") :
    py_parse_int s = none := by
  have hd : s.data.map ascii_lower = ['t', 'r', 'u', 'e'] := by
    have h2 := congrArg String.data h
    simpa [py_lower] using h2
  obtain ⟨a, rest, hcons⟩ : ∃ a rest, s.data = a :: rest := by
    rcases hds : s.data with _ | ⟨a, rest⟩
    · rw [hds] at hd; simp at hd
    · exact ⟨a, rest, rfl⟩
  rw [hcons] at hd
  simp only [List.map_cons, List.cons.injEq] at hd
  have ha : ascii_lower a = 't' := hd.1
  have hsa : py_is_space a = false := by
    by_contra hh
    rw [Bool.not_eq_false] at hh
    rw [space_ascii_lower hh] at ha
    subst ha
    exact absurd hh (by decide)
  have hda : py_is_digit a = false := by
    by_contra hh
    rw [Bool.not_eq_false] at hh
    rw [digit_ascii_lower hh] at ha
    subst ha
    exact absurd hh (by decide)
  have hap : a ≠ '+' := by intro hh; rw [hh] at ha; exact absurd ha (by decide)
  have ham : a ≠ '-' := by intro hh; rw [hh] at ha; exact absurd ha (by decide)
  have htrim : trim_chars s.data = a :: (rest.reverse.dropWhile py_is_space).reverse := by
    rw [hcons]
    simp only [trim_chars, List.dropWhile_cons, hsa, if_neg Bool.false_ne_true,
      List.reverse_cons]
    rw [dropWhile_append_singleton hsa, List.reverse_append]
    rfl
  have hsign : strip_sign (trim_chars s.data) =
      (1, a :: (rest.reverse.dropWhile py_is_space).reverse) := by
    rw [htrim]
    simp [strip_sign, hap, ham]
  have htake : (a :: (rest.reverse.dropWhile py_is_space).reverse).takeWhile py_is_digit
      = [] := by
    simp [List.takeWhile_cons, hda]
  simp [py_parse_int, hsign, htake]

/-- C4: scalar decoding is a total Boolean function: it returns `true`
exactly when the output parses as a nonzero integer or lowercases to the
literal `true`, and returns `false` for `0`, `false` and anything
unrecognized. -/
theorem claim_C4 :
    (∀ s, scalar_stage s = true ↔
      ((∃ n : Int, py_parse_int s = some n ∧ n ≠ 0) ∨ py_lower s = "true")) ∧
    scalar_stage "1" = true ∧ scalar_stage "true" = true ∧
    scalar_stage "0" = false ∧ scalar_stage "false" = false ∧
    scalar_stage "garbage" = false := by
  refine ⟨?_, by decide, by decide, by decide, by decide, by decide⟩
  intro s
  rcases hp : py_parse_int s with _ | n
  · simp only [scalar_stage, is_int_parsed, hp, Option.isSome_none, Bool.false_eq_true,
      if_false]
    constructor
    · intro h
      split_ifs at h with h1 h2
      exact Or.inr h1
    · rintro (⟨m, hm, _⟩ | ht)
      · cases hm
      · simp [ht]
  · simp only [scalar_stage, is_int_parsed, hp, Option.isSome_some, if_true,
      Option.getD_some, bne_iff_ne, ne_eq]
    constructor
    · intro h
      exact Or.inl ⟨n, rfl, h⟩
    · rintro (⟨m, hm, hne⟩ | ht)
      · rw [Option.some.injEq] at hm
        rw [hm]
        exact hne
      · rw [py_lower_true_parse_none ht] at hp
        exact Option.noConfusion hp

/-- C6: when the direct attempt fails with `VeertuAppNotFoundException`,
`_call_veertu_with_name_fallback` re-raises it at once (line 278–279):
the trace shows the single direct call, with no listing and no retry. -/
theorem claim_C6 {α : Type} (callApp : String → Except VErr α)
    (listVMs : Unit → Except VErr (List VRecord)) (command : String)
    (args : List String) (idv : String)
    (hdirect : callApp (py_format command args) = .error .veertuAppNotFound) :
    call_veertu_with_name_fallback callApp listVMs command args (some idv)
      = (.error .veertuAppNotFound, [.appCall (py_format command args)]) := by
  simp only [call_veertu_with_name_fallback]
  rw [hdirect]
  rfl

/-- Witness for C6: a command whose direct call reports the application
missing is not retried. -/
theorem claim_C6_witness :
    call_veertu_with_name_fallback
      (fun _ => (.error .veertuAppNotFound : Except VErr Bool))
      (fun _ => .ok []) "start of vm id \"{}\"" ["box1"] (some "box1")
      = (.error .veertuAppNotFound,
         [.appCall (py_format "start of vm id \"{}\"" ["box1"])]) :=
  claim_C6 _ _ _ _ _ rfl

/-- `_find_working_app_name_from_options` ignores a leading option that
fails verification. -/
theorem find_working_cons_false (probe : String → Except VErr Bool) (u : String)
    (opts : List String) (fb : String) (hu : verify_app_name probe u = false) :
    find_working_app_name_from_options probe (u :: opts) fb
      = find_working_app_name_from_options probe opts fb := by
  have hu' : ¬((fun app_option => verify_app_name probe app_option) u = true) := by
    simp [hu]
  simp only [find_working_app_name_from_options, List.find?_cons_of_neg opts hu']

/-- C9: the locator probes candidates in order and returns the first one
whose probe completes without `VeertuAppNotFoundException`
(`verify_app_name` is true exactly in that case); when every candidate
fails it returns the fallback name regardless of its own final probe. -/
theorem claim_C9 (probe : String → Except VErr Bool) (fallback_app_name : String) :
    (∀ pre app_option post,
      (∀ u ∈ pre, verify_app_name probe u = false) →
      verify_app_name probe app_option = true →
      find_working_app_name_from_options probe (pre ++ app_option :: post)
        fallback_app_name = app_option) ∧
    (∀ options, (∀ u ∈ options, verify_app_name probe u = false) →
      find_working_app_name_from_options probe options fallback_app_name
        = fallback_app_name) ∧
    (∀ app_name, verify_app_name probe app_name = true ↔
      probe app_name ≠ .error .veertuAppNotFound) := by
  refine ⟨?_, ?_, ?_⟩
  · intro pre app_option post hpre hopt
    induction pre with
    | nil =>
      have hopt' : (fun a => verify_app_name probe a) app_option = true := hopt
      simp only [List.nil_append, find_working_app_name_from_options,
        List.find?_cons_of_pos post hopt']
    | cons u us ih =>
      rw [List.cons_append, find_working_cons_false probe u _ _ (hpre u (by simp))]
      exact ih (fun v hv => hpre v (by simp [hv]))
  · intro options hall
    have hfind : options.find? (fun app_option => verify_app_name probe app_option)
        = none := by
      rw [List.find?_eq_none]
      intro x hx
      simp [hall x hx]
    simp only [find_working_app_name_from_options, hfind]
    split <;> rfl
  · intro app_name
    cases hpr : probe app_name with
    | ok val => simp [verify_app_name, hpr]
    | error e => cases e <;> simp [verify_app_name, hpr]

/-- Witness for C9: with `Veertu` unreachable and every other name
responsive, the locator skips `Veertu` and memoizes the second
candidate. -/
theorem claim_C9_witness :
    find_working_app_name_from_options
      (fun n => if n = "Veertu" then (.error .veertuAppNotFound : Except VErr Bool)
                else .ok true)
      ["Veertu", "Veertu 2016 Business", "Veertu Desktop"] "Veertu"
      = "Veertu 2016 Business" :=
  (claim_C9
      (fun n => if n = "Veertu" then (.error .veertuAppNotFound : Except VErr Bool)
                else .ok true) "Veertu").1
    ["Veertu"] "Veertu 2016 Business" ["Veertu Desktop"]
    (by
      intro u hu
      have h : u = "Veertu" := by simpa using hu
      rw [h]
      rfl)
    rfl

/-- The fallback scan skips listed VMs whose display name does not match
the primary identifier. -/
theorem fallback_scan_skip {α : Type} (callApp : String → Except VErr α)
    (cmd idv : String) (pre rest : List VRecord) (log : List FBEvent)
    (hpre : ∀ u ∈ pre, record_get u "name" ≠ some idv) :
    fallback_scan callApp cmd idv (pre ++ rest) log
      = fallback_scan callApp cmd idv rest log := by
  induction pre with
  | nil => rfl
  | cons u us ih =>
    have hu : ¬(record_get u "name" = some idv) := hpre u (by simp)
    simp only [List.cons_append, fallback_scan, if_neg hu]
    exact ih (fun v hv => hpre v (by simp [hv]))

/-- C5: when the direct attempt fails with a `VMNotFoundException`-class
error, the resolver lists all VMs; if the first VM whose display name
equals the primary identifier exists, the call is retried exactly once
with the VM's canonical id substituted for the first textual occurrence
of the identifier in the rendered command and the retry's result is
returned; if no name matches, or the listing itself fails, the resolver
raises `VMNotFoundException`, wrapping the listing-stage error.  The
event trace pins down the exact sequence of external operations. -/
theorem claim_C5 {α : Type} (callApp : String → Except VErr α)
    (listVMs : Unit → Except VErr (List VRecord)) (command : String)
    (args : List String) (idv : String) (w : Option VErr)
    (hdirect : callApp (py_format command args) = .error (.vmNotFound w)) :
    (∀ pre vm post vm_id v,
      listVMs () = .ok (pre ++ vm :: post) →
      (∀ u ∈ pre, record_get u "name" ≠ some idv) →
      record_get vm "name" = some idv →
      record_get vm "id" = some vm_id →
      callApp (py_replace_first (py_format command args) idv vm_id) = .ok v →
      call_veertu_with_name_fallback callApp listVMs command args (some idv)
        = (.ok v, [.appCall (py_format command args), .listCall,
                   .appCall (py_replace_first (py_format command args) idv vm_id)])) ∧
    (∀ vms_list, listVMs () = .ok vms_list →
      (∀ u ∈ vms_list, record_get u "name" ≠ some idv) →
      call_veertu_with_name_fallback callApp listVMs command args (some idv)
        = (.error (.vmNotFound none),
           [.appCall (py_format command args), .listCall])) ∧
    (∀ e2, listVMs () = .error e2 → e2 ≠ .pyTypeError →
      call_veertu_with_name_fallback callApp listVMs command args (some idv)
        = (.error (.vmNotFound (some e2)),
           [.appCall (py_format command args), .listCall])) := by
  refine ⟨?_, ?_, ?_⟩
  · intro pre vm post vm_id v hlist hpre hname hid hretry
    simp only [call_veertu_with_name_fallback, Option.orElse]
    rw [hdirect]
    simp only []
    rw [hlist]
    simp only []
    rw [fallback_scan_skip callApp (py_format command args) idv pre (vm :: post) _ hpre]
    simp only [fallback_scan, if_pos hname]
    rw [hid]
    simp only []
    rw [hretry]
    rfl
  · intro vms_list hlist hall
    simp only [call_veertu_with_name_fallback, Option.orElse]
    rw [hdirect]
    simp only []
    rw [hlist]
    simp only []
    have h0 : vms_list = vms_list ++ [] := by simp
    rw [h0, fallback_scan_skip callApp (py_format command args) idv vms_list [] _
      (by simpa using hall)]
    rfl
  · intro e2 hlist hne
    simp only [call_veertu_with_name_fallback, Option.orElse]
    rw [hdirect]
    simp only []
    rw [hlist]
    cases e2 <;> simp_all

/-- Witness for C5: `box1` fails direct lookup, the listing maps the name
`box1` to id `ID1`, and the retried call succeeds. -/
theorem claim_C5_witness :
    call_veertu_with_name_fallback
      (fun c => if c = "start of vm id \"ID1\"" then (.ok true : Except VErr Bool)
                else .error (.vmNotFound none))
      (fun _ => .ok [[("id", some "ID1"), ("name", some "box1")]])
      "start of vm id \"{}\"" ["box1"] (some "box1")
      = (.ok true,
         [.appCall (py_format "start of vm id \"{}\"" ["box1"]), .listCall,
          .appCall (py_replace_first (py_format "start of vm id \"{}\"" ["box1"])
            "box1" "ID1")]) :=
  (claim_C5
      (fun c => if c = "start of vm id \"ID1\"" then (.ok true : Except VErr Bool)
                else .error (.vmNotFound none))
      (fun _ => .ok [[("id", some "ID1"), ("name", some "box1")]])
      "start of vm id \"{}\"" ["box1"] "box1" none rfl).1
    [] [("id", some "ID1"), ("name", some "box1")] [] "ID1" true
    rfl (fun u hu => absurd hu (List.not_mem_nil u)) rfl rfl rfl

/-- The negativity test on a parsed float agrees with its rational
value. -/
theorem pyf_neg_iff (q : Int × Nat) : pyf_neg q = true ↔ py_float_val q < 0 := by
  unfold pyf_neg py_float_val
  rw [decide_eq_true_eq]
  constructor
  · intro h
    apply div_neg_of_neg_of_pos
    · exact_mod_cast h
    · positivity
  · intro h
    by_contra hn
    push_neg at hn
    have h0 : (0 : ℚ) ≤ (q.1 : ℚ) / (10 : ℚ) ^ q.2 :=
      div_nonneg (by exact_mod_cast hn) (by positivity)
    linarith

/-- The `>= 1.0` test on a parsed float agrees with its rational value. -/
theorem pyf_ge_one_iff (q : Int × Nat) : pyf_ge_one q = true ↔ 1 ≤ py_float_val q := by
  unfold pyf_ge_one py_float_val
  rw [decide_eq_true_eq, le_div_iff₀ (by positivity : (0 : ℚ) < (10 : ℚ) ^ q.2), one_mul]
  constructor
  · intro h
    exact_mod_cast h
  · intro h
    exact_mod_cast h

/-- The integer computation `int(f * 100)` on a parsed float is the floor
of `100` times its rational value. -/
theorem pyf_floor_100_eq (q : Int × Nat) :
    pyf_floor_100 q = Int.floor (py_float_val q * 100) := by
  unfold pyf_floor_100 py_float_val
  have h : (q.1 : ℚ) / (10 : ℚ) ^ q.2 * 100
      = ((q.1 * 100 : ℤ) : ℚ) / ((10 ^ q.2 : ℕ) : ℚ) := by
    push_cast
    ring
  rw [h, Rat.floor_intCast_div_natCast]
  norm_cast

/-- C7 as stated is false of the program: at the reading `0.29` the code
computes `int(float("0.29") * 100)` in double precision — the product is
`28.999999999999996…`, truncated to `28` — while `floor(fraction * 100)`
for the exact fraction `29/100` is `29`. -/
theorem claim_C7_counterexample :
    progress "0.29" = .ok 28 ∧
    py_parse_float (py_strip "0.29") = some (29, 2) ∧
    Int.floor (py_float_val (29, 2) * 100) = 29 ∧
    (28 : Int) ≠ 29 := by
  refine ⟨by rfl, by decide, ?_, by decide⟩
  rw [← pyf_floor_100_eq]
  decide

/-- C7 (amended): a single progress poll fails with
`ImportExportFailedException` on a sentinel, empty or unparseable reading
and on a negative value; otherwise it reports `int(f * 100)` computed in
double precision — the truncation of the binary64 product, which can fall
one below `floor(fraction * 100)` when the product rounds below the exact
value (`0.29` gives `28`, `0.57` gives `56`) — with a computed `0`
reported as `1`: `0.0` yields `1` and `0.5` yields `50`. -/
theorem claim_C7 :
    progress "" = .error .importExportFailed ∧
    progress "(null)" = .error .importExportFailed ∧
    progress "-" = .error .importExportFailed ∧
    (∀ s, sentinel_reading s = false → py_parse_float (py_strip s) = none →
      progress s = .error .importExportFailed) ∧
    (∀ s q, sentinel_reading s = false → py_parse_float (py_strip s) = some q →
      dbl_neg (dbl_of_decimal q.1 q.2) = true →
      progress s = .error .importExportFailed) ∧
    (∀ s q, sentinel_reading s = false → py_parse_float (py_strip s) = some q →
      dbl_neg (dbl_of_decimal q.1 q.2) = false →
      progress s = .ok
        (if dbl_trunc (dbl_mul_100 (dbl_of_decimal q.1 q.2)) = 0 then 1
         else dbl_trunc (dbl_mul_100 (dbl_of_decimal q.1 q.2)))) ∧
    progress "0.0" = .ok 1 ∧
    progress "0.5" = .ok 50 ∧
    progress "-1.0" = .error .importExportFailed ∧
    progress "0.29" = .ok 28 ∧
    progress "0.57" = .ok 56 := by
  refine ⟨rfl, rfl, rfl, ?_, ?_, ?_, by rfl, by rfl, by rfl, by rfl, by rfl⟩
  · intro s hs hq
    simp only [progress, hs, Bool.false_eq_true, if_false, hq]
  · intro s q hs hq hneg
    simp only [progress, hs, Bool.false_eq_true, if_false, hq, hneg, if_true]
  · intro s q hs hq hneg
    simp only [progress, hs, Bool.false_eq_true, if_false, hq, hneg]

/-- Witness for C7: the reading `-0.5` converts to a negative double and
the poll fails. -/
theorem claim_C7_witness : progress "-0.5" = .error .importExportFailed :=
  claim_C7.2.2.2.2.1 "-0.5" (-5, 1) rfl (by decide) (by decide)

/-- Unpack a continuing reading: no sentinel, a parsed fraction, neither
`>= 1.0` nor `< 0.0`. -/
theorem good_reading_spec {s : String} (h : good_reading s = true) :
    sentinel_reading s = false ∧
      ∃ q, py_parse_float s = some q ∧ pyf_ge_one q = false ∧ pyf_neg q = false := by
  unfold good_reading at h
  rcases hp : py_parse_float s with _ | q
  · rw [hp] at h
    simp at h
  · rw [hp] at h
    simp only [Bool.and_eq_true, Bool.not_eq_true'] at h
    exact ⟨h.1, q, rfl, h.2.1, h.2.2⟩

/-- Build a continuing reading. -/
theorem good_reading_intro {s : String} {q : Int × Nat}
    (h1 : sentinel_reading s = false) (h2 : py_parse_float s = some q)
    (h3 : pyf_ge_one q = false) (h4 : pyf_neg q = false) : good_reading s = true := by
  unfold good_reading
  rw [h1, h2]
  simp [h3, h4]

/-- A negative fraction is never `>= 1.0`. -/
theorem pyf_neg_not_ge_one {q : Int × Nat} (h : pyf_neg q = true) :
    pyf_ge_one q = false := by
  unfold pyf_neg at h
  unfold pyf_ge_one
  rw [decide_eq_true_eq] at h
  rw [decide_eq_false_iff_not]
  intro hge
  have hpow : (0 : Int) < 10 ^ q.2 := by positivity
  omega

/-- If the first `n` readings keep the loop polling and the `n`-th (from
the current index) reports a fraction `>= 1.0`, the worker completes
after `n + 1` more polls and `n` more sleeps. -/
theorem progress_loop_go_completed (readings : Nat → String) :
    ∀ n fuel polls sleeps q, n < fuel →
    (∀ i, polls ≤ i → i < polls + n → good_reading (readings i) = true) →
    sentinel_reading (readings (polls + n)) = false →
    py_parse_float (readings (polls + n)) = some q →
    pyf_ge_one q = true →
    progress_loop_go readings fuel polls sleeps
      = (.completed, polls + n + 1, sleeps + n) := by
  intro n
  induction n with
  | zero =>
    intro fuel polls sleeps q hfuel _ hs hq hge
    match fuel, hfuel with
    | f + 1, _ =>
      simp only [Nat.add_zero] at hs hq
      simp only [progress_loop_go, hs, Bool.false_eq_true, if_false, hq, hge, if_true]
      rfl
  | succ n ih =>
    intro fuel polls sleeps q hfuel hgood hs hq hge
    match fuel, hfuel with
    | f + 1, hfuel =>
      obtain ⟨hs0, q0, hq0, hge0, hneg0⟩ :=
        good_reading_spec (hgood polls (Nat.le_refl polls) (by omega))
      simp only [progress_loop_go, hs0, Bool.false_eq_true, if_false, hq0, hge0, hneg0]
      have harg : polls + 1 + n = polls + (n + 1) := by omega
      have := ih f (polls + 1) (sleeps + 1) q (by omega)
        (fun i h1 h2 => hgood i (by omega) (by omega))
        (by rw [harg]; exact hs) (by rw [harg]; exact hq) hge
      rw [this]
      refine congrArg _ ?_
      refine congrArg₂ _ (by omega) (by omega)

/-- If the first `n` readings keep the loop polling and the next one is a
sentinel, unparseable, or a negative fraction, the worker fails after
`n + 1` more polls and `n` more sleeps, without polling further. -/
theorem progress_loop_go_failed (readings : Nat → String) :
    ∀ n fuel polls sleeps, n < fuel →
    (∀ i, polls ≤ i → i < polls + n → good_reading (readings i) = true) →
    (sentinel_reading (readings (polls + n)) = true ∨
      py_parse_float (readings (polls + n)) = none ∨
      (∃ q, py_parse_float (readings (polls + n)) = some q ∧ pyf_neg q = true)) →
    progress_loop_go readings fuel polls sleeps
      = (.failedPoll, polls + n + 1, sleeps + n) := by
  intro n
  induction n with
  | zero =>
    intro fuel polls sleeps hfuel _ hbad
    match fuel, hfuel with
    | f + 1, _ =>
      simp only [Nat.add_zero] at hbad
      rcases hbad with hs | hp | ⟨q, hq, hneg⟩
      · simp only [progress_loop_go, hs, if_true]
        rfl
      · rcases hsen : sentinel_reading (readings polls) with _ | _
        · simp only [progress_loop_go, hsen, Bool.false_eq_true, if_false, hp]
          rfl
        · simp only [progress_loop_go, hsen, if_true]
          rfl
      · rcases hsen : sentinel_reading (readings polls) with _ | _
        · simp only [progress_loop_go, hsen, Bool.false_eq_true, if_false, hq,
            pyf_neg_not_ge_one hneg, hneg, if_true]
          rfl
        · simp only [progress_loop_go, hsen, if_true]
          rfl
  | succ n ih =>
    intro fuel polls sleeps hfuel hgood hbad
    match fuel, hfuel with
    | f + 1, hfuel =>
      obtain ⟨hs0, q0, hq0, hge0, hneg0⟩ :=
        good_reading_spec (hgood polls (Nat.le_refl polls) (by omega))
      simp only [progress_loop_go, hs0, Bool.false_eq_true, if_false, hq0, hge0, hneg0]
      have harg : polls + 1 + n = polls + (n + 1) := by omega
      have := ih f (polls + 1) (sleeps + 1) (by omega)
        (fun i h1 h2 => hgood i (by omega) (by omega))
        (by rw [harg]; exact hbad)
      rw [this]
      refine congrArg _ ?_
      refine congrArg₂ _ (by omega) (by omega)

/-- Converse: whenever the worker completes, the final poll read a
fraction `>= 1.0`, every earlier poll read a continuing fraction, and
exactly one sleep separated each pair of consecutive polls. -/
theorem progress_loop_go_completed_inv (readings : Nat → String) :
    ∀ fuel polls sleeps n sleeps2,
    progress_loop_go readings fuel polls sleeps = (.completed, n, sleeps2) →
    ∃ j, polls ≤ j ∧ n = j + 1 ∧ sleeps2 = sleeps + (j - polls) ∧
      sentinel_reading (readings j) = false ∧
      (∃ q, py_parse_float (readings j) = some q ∧ pyf_ge_one q = true) ∧
      (∀ i, polls ≤ i → i < j → good_reading (readings i) = true) := by
  intro fuel
  induction fuel with
  | zero =>
    intro polls sleeps n sleeps2 h
    exact absurd h (by simp [progress_loop_go])
  | succ f ih =>
    intro polls sleeps n sleeps2 h
    by_cases hsen : sentinel_reading (readings polls) = true
    · simp [progress_loop_go, hsen] at h
    · have hsen' : sentinel_reading (readings polls) = false := by simpa using hsen
      rcases hp : py_parse_float (readings polls) with _ | q
      · simp [progress_loop_go, hsen', hp] at h
      · by_cases hge : pyf_ge_one q = true
        · simp only [progress_loop_go, hsen', Bool.false_eq_true, if_false, hp, hge,
            if_true, Prod.mk.injEq] at h
          refine ⟨polls, Nat.le_refl _, h.2.1.symm, by omega, hsen', ⟨q, hp, hge⟩, ?_⟩
          intro i h1 h2
          omega
        · have hge' : pyf_ge_one q = false := by simpa using hge
          by_cases hneg : pyf_neg q = true
          · simp [progress_loop_go, hsen', hp, hge', hneg] at h
          · have hneg' : pyf_neg q = false := by simpa using hneg
            simp only [progress_loop_go, hsen', Bool.false_eq_true, if_false, hp, hge',
              hneg'] at h
            obtain ⟨j, hj1, hj2, hj3, hj4, hj5, hj6⟩ := ih (polls + 1) (sleeps + 1) n
              sleeps2 h
            refine ⟨j, by omega, hj2, by omega, hj4, hj5, ?_⟩
            intro i h1 h2
            by_cases hi : i = polls
            · subst hi
              exact good_reading_intro hsen' hp hge' hneg'
            · exact hj6 i (by omega) h2

/-- C8: `progress_loop` terminates normally exactly when a polled
fraction reaches `1.0`, and does so at the first such poll; a sentinel,
unparseable, or negative reading fails the loop at once, with no further
polling; the raw fraction is used directly (a `0.0` reading is a
continuing reading, with no zero-to-one clamping); and every pair of
consecutive polls is separated by exactly one sleep (`sleeps = polls - 1`
on every terminating run). -/
theorem claim_C8 :
    (∀ readings fuel n sleeps2,
      progress_loop readings fuel = (.completed, n + 1, sleeps2) →
      sleeps2 = n ∧
      sentinel_reading (readings n) = false ∧
      (∃ q, py_parse_float (readings n) = some q ∧ pyf_ge_one q = true) ∧
      (∀ i, i < n → good_reading (readings i) = true)) ∧
    (∀ readings fuel n q, n < fuel →
      (∀ i, i < n → good_reading (readings i) = true) →
      sentinel_reading (readings n) = false →
      py_parse_float (readings n) = some q →
      pyf_ge_one q = true →
      progress_loop readings fuel = (.completed, n + 1, n)) ∧
    (∀ readings fuel n, n < fuel →
      (∀ i, i < n → good_reading (readings i) = true) →
      (sentinel_reading (readings n) = true ∨ py_parse_float (readings n) = none ∨
        (∃ q, py_parse_float (readings n) = some q ∧ pyf_neg q = true)) →
      progress_loop readings fuel = (.failedPoll, n + 1, n)) ∧
    (∀ q, pyf_ge_one q = true ↔ 1 ≤ py_float_val q) ∧
    good_reading "0.0" = true ∧
    progress_loop (fun i => if i = 0 then "0.0" else "1.0") 5 = (.completed, 2, 1) := by
  refine ⟨?_, ?_, ?_, pyf_ge_one_iff, by decide, by decide⟩
  · intro readings fuel n sleeps2 h
    obtain ⟨j, hj1, hj2, hj3, hj4, hj5, hj6⟩ :=
      progress_loop_go_completed_inv readings fuel 0 0 (n + 1) sleeps2 h
    have hjn : j = n := by omega
    subst hjn
    exact ⟨by omega, hj4, hj5, fun i hi => hj6 i (Nat.zero_le i) hi⟩
  · intro readings fuel n q hfuel hgood hs hq hge
    have := progress_loop_go_completed readings n fuel 0 0 q hfuel
      (fun i h1 h2 => hgood i (by omega)) (by simpa using hs) (by simpa using hq) hge
    simpa [progress_loop] using this
  · intro readings fuel n hfuel hgood hbad
    have := progress_loop_go_failed readings n fuel 0 0 hfuel
      (fun i h1 h2 => hgood i (by omega)) (by simpa using hbad)
    simpa [progress_loop] using this

/-- Witness for C8: one continuing `0.5` poll, one sleep, then a `2.00`
poll completes the loop. -/
theorem claim_C8_witness :
    progress_loop (fun i => if i = 0 then "0.5" else "2.00") 3 = (.completed, 2, 1) :=
  claim_C8.2.1 (fun i => if i = 0 then "0.5" else "2.00") 3 1 (200, 2) (by decide)
    (by
      intro i hi
      have h0 : i = 0 := by omega
      rw [h0]
      decide)
    (by decide) (by decide) (by decide)

/-- With enough tokens, one pass of the inner loop produces exactly the
flagged projection fields bound positionally. -/
theorem record_of_chunk_eq : ∀ (proj : List (String × Bool)) (chunk : List String),
    proj.length ≤ chunk.length → record_of_chunk proj chunk = projected_fields proj chunk
  | [], chunk, _ => by simp [record_of_chunk, projected_fields]
  | (key, b) :: rest, [], h => by simp at h
  | (key, b) :: rest, t :: ts, h => by
    have hr := record_of_chunk_eq rest ts (by simpa using h)
    cases b <;>
      simp [record_of_chunk, projected_fields, hr, List.filterMap_cons]

/-- With enough tokens, `_turn_into_dict` also produces exactly the
flagged projection fields bound positionally. -/
theorem turn_into_dict_eq : ∀ (proj : List (String × Bool)) (toks : List String),
    proj.length ≤ toks.length → turn_into_dict toks proj = projected_fields proj toks
  | [], toks, _ => by cases toks <;> simp [turn_into_dict, projected_fields]
  | (key, b) :: rest, [], h => by simp at h
  | (key, b) :: rest, t :: ts, h => by
    have hr := turn_into_dict_eq rest ts (by simpa using h)
    cases b <;>
      simp [turn_into_dict, projected_fields, hr, List.filterMap_cons]

/-- When the token count is exactly `k` records' worth, the outer loop
produces the `i`-th record from tokens `i*len .. (i+1)*len - 1`. -/
theorem build_records_eq : ∀ (k : Nat) (proj : List (String × Bool)) (toks : List String),
    toks.length = k * proj.length →
    build_records proj k toks = (List.range k).map (fun i =>
      projected_fields proj ((toks.drop (i * proj.length)).take proj.length)) := by
  intro k
  induction k with
  | zero => intro proj toks _; simp [build_records]
  | succ k ih =>
    intro proj toks hlen
    have hple : proj.length ≤ toks.length := by
      rw [hlen, Nat.succ_mul]
      omega
    have htake : proj.length ≤ (toks.take proj.length).length := by
      simp [List.length_take]
      omega
    have hdrop : (toks.drop proj.length).length = k * proj.length := by
      rw [List.length_drop, hlen, Nat.succ_mul]
      omega
    simp only [build_records, record_of_chunk_eq proj _ htake, ih proj _ hdrop,
      List.range_succ_eq_map, List.map_cons, List.map_map]
    congr 1
    · simp
    · refine List.map_congr_left ?_
      intro i _
      simp only [Function.comp, List.drop_drop, Nat.succ_mul]
      rw [Nat.add_comm]

/-- C1: for a non-empty projection (an ordered mapping, so its keys are
distinct) and a token count that is a positive multiple `k` of the
projection length, the projection decode succeeds with exactly `k`
records, the `i`-th being the flagged fields of the projection bound, in
projection order, to the `i`-th run of `len(projection)` consecutive
tokens (excluded fields still consume their slot). -/
theorem claim_C1 (s : String) (projection : List (String × Bool))
    (return_list_of_dicts : Bool) (k : Nat)
    (hproj : projection ≠ [])
    (_hkeys : (projection.map Prod.fst).Nodup)
    (hlen : (split_and_strip s).length = k * projection.length)
    (hk : 0 < k) :
    ∃ r, projection_stage s projection return_list_of_dicts = .ok r ∧
      decode_records r = (List.range k).map (fun i =>
        projected_fields projection
          (((split_and_strip s).drop (i * projection.length)).take projection.length)) ∧
      (decode_records r).length = k := by
  have hplen : projection.length ≠ 0 := fun h => hproj (List.length_eq_zero.mp h)
  have hplen' : 0 < projection.length := Nat.pos_of_ne_zero hplen
  have hnorm : ¬((split_and_strip s).length = 1 ∧ (split_and_strip s).head? = some "") :=
    fun h => split_and_strip_ne_single_empty s (length_one_head_empty.mp h)
  have hmod : ¬((split_and_strip s).length % projection.length ≠ 0) := by
    rw [hlen]
    simp [Nat.mul_mod_left]
  have hobj : (split_and_strip s).length / projection.length = k := by
    rw [hlen]
    exact Nat.mul_div_cancel k hplen'
  have hk0 : ¬(k = 0) := by omega
  simp only [projection_stage, if_neg hplen, if_neg hnorm, if_neg hmod, hobj,
    if_neg hk0]
  by_cases hsingle : k = 1 ∧ return_list_of_dicts = false
  · rw [if_pos hsingle]
    obtain ⟨hk1, _⟩ := hsingle
    subst hk1
    have hge : projection.length ≤ (split_and_strip s).length := by
      rw [hlen, Nat.one_mul]
    have hle : (split_and_strip s).length ≤ projection.length := by
      rw [hlen, Nat.one_mul]
    refine ⟨.single (turn_into_dict (split_and_strip s) projection), rfl, ?_, rfl⟩
    rw [decode_records, turn_into_dict_eq projection _ hge]
    have h1 : List.range 1 = [0] := rfl
    simp [h1, List.take_of_length_le hle]
  · rw [if_neg hsingle]
    refine ⟨.many (build_records projection k (split_and_strip s)), rfl, ?_, ?_⟩
    · rw [decode_records]
      exact build_records_eq k projection _ hlen
    · rw [decode_records, build_records_eq k projection _ hlen]
      simp

/-- Witness for C1: the specification's scenario — projection
`{id: true, name: true, status: false}` over six tokens yields two
records of the two flagged fields each. -/
theorem claim_C1_witness :
    ∃ r, projection_stage "abc, box1, running, def, box2, stopped"
        [("id", true), ("name", true), ("status", false)] true = .ok r ∧
      decode_records r = (List.range 2).map (fun i =>
        projected_fields [("id", true), ("name", true), ("status", false)]
          (((split_and_strip "abc, box1, running, def, box2, stopped").drop
              (i * ([("id", true), ("name", true), ("status", false)]
                : List (String × Bool)).length)).take
            ([("id", true), ("name", true), ("status", false)]
              : List (String × Bool)).length)) ∧
      (decode_records r).length = 2 :=
  claim_C1 "abc, box1, running, def, box2, stopped"
    [("id", true), ("name", true), ("status", false)] true 2
    (by decide) (by decide) (by decide) (by decide)
